import Mathlib

/-!
Verification of the customer data-normalization and aggregation layer of the
B2B subscription portal (single-page-app).

The definitions below are a shallow embedding of the TypeScript source:

* `transformCustomerData` in `app/contexts/CustomerContext.tsx` (lines 43-76),
* the record validation loop of `refreshCustomers` (lines 236-279),
* the list operations `addCustomer` / `updateCustomer` / `deleteCustomer`
  (lines 141, 168-172, 198),
* the `allCustomersFlattened` reduce of `app/client-create-batch/page.tsx`
  (lines 29-48) and the identical reduce on the homepage.

Modelling conventions for JavaScript dynamics:

* A raw webhook record is `Raw`: every alias key the source reads is a field.
  An absent key, a key holding `undefined`, and a key holding `null` are all
  modelled as `none` (the source only ever distinguishes them through `??`
  and `||`, which treat `null` like `undefined`, and through `String()`,
  where the null/undefined spelling difference does not matter to any
  property proved here).
* JavaScript `a ?? b` on record fields is `Option.orElse` (first present
  value wins, even a falsy one).
* JavaScript `a || b` is resolved through `truthyS` / `truthyI`: an empty
  string and the number 0 are falsy and fall through; the final operand is
  returned as-is when all operands are falsy.
* `String(x)` on a missing identifier yields the string "undefined", exactly
  as in JavaScript; on numbers it yields their decimal spelling.
* JavaScript numbers are modelled as `Int` (no claim here depends on
  fractional or NaN behaviour).
* `new Date(s).getTime() / 1000` is modelled by an arbitrary function
  `parse : String → Int` passed as a parameter, and
  `Math.floor(Date.now() / 1000)` by a parameter `now : Int`; every theorem
  quantifies over both, so nothing proved depends on a particular date
  semantics.
* The suborgs aliases may hold a non-array value: `SubField.nonArray` models
  a present truthy non-array (it stops the `||` chain and then fails the
  `Array.isArray` test, producing `[]`); a present falsy non-array behaves
  exactly like an absent key in the `||` chain and is folded into `absent`.
-/

/-- Key/value metadata object; `{}` is `[]`. -/
abbrev Metadata := List (String × String)

/-- A JavaScript primitive that can sit in an identifier field. -/
inductive JVal where
  | s (v : String)
  | n (v : Int)
deriving DecidableEq

/-- JavaScript `String(x)` on an identifier value. -/
def JVal.toStr : JVal → String
  | .s v => v
  | .n v => toString v

/-- The scalar (non-recursive) alias fields a raw webhook record can carry,
one field per alias key read by `transformCustomerData`. -/
structure RawScalar where
  id : Option JVal
  Id : Option JVal
  ID : Option JVal
  name : Option String
  Name : Option String
  customer_type : Option String
  customerType : Option String
  created : Option Int
  CreatedAt : Option String
  client_count : Option Int
  clientCount : Option Int
  ClientCount : Option Int
  parent_org_name : Option String
  parentOrgName : Option String
  ParentOrgName : Option String
  email : Option String
  Email : Option String
  metadata : Option Metadata
deriving DecidableEq

/-- The all-absent record (convenient base for concrete test records). -/
def RawScalar.empty : RawScalar :=
  ⟨none, none, none, none, none, none, none, none, none,
   none, none, none, none, none, none, none, none, none⟩

mutual
/-- A raw webhook record: scalar alias fields plus the three suborgs alias
keys (`suborgs`, `subOrgs`, `SubOrgs`). -/
inductive Raw where
  | mk (scalar : RawScalar) (suborgs subOrgs SubOrgs : SubField) : Raw

/-- Value of one suborgs alias key. -/
inductive SubField where
  | absent : SubField
  | nonArray : SubField
  | arr (l : RawList) : SubField

/-- A JavaScript array of raw records. -/
inductive RawList where
  | nil : RawList
  | cons (head : Raw) (tail : RawList) : RawList
end

def Raw.scalar : Raw → RawScalar
  | .mk s _ _ _ => s

def RawList.toList : RawList → List Raw
  | .nil => []
  | .cons r rs => r :: rs.toList

mutual
/-- The normalized customer entity (`Customer` interface of
CustomerContext.tsx); `transformCustomerData` always fills every field, so
the optional TypeScript fields that it always sets are plain here and the
genuinely optional ones (`parent_org_name`, `email`) are `Option`. -/
inductive Customer where
  | mk (id name customer_type : String) (created client_count : Int)
       (suborgs : CustomerList) (parent_org_name email : Option String)
       (metadata : Metadata) : Customer

/-- An array of customers. -/
inductive CustomerList where
  | nil : CustomerList
  | cons (head : Customer) (tail : CustomerList) : CustomerList
end

def Customer.id : Customer → String
  | .mk i _ _ _ _ _ _ _ _ => i

def Customer.name : Customer → String
  | .mk _ v _ _ _ _ _ _ _ => v

def Customer.customer_type : Customer → String
  | .mk _ _ v _ _ _ _ _ _ => v

def Customer.created : Customer → Int
  | .mk _ _ _ v _ _ _ _ _ => v

def Customer.client_count : Customer → Int
  | .mk _ _ _ _ v _ _ _ _ => v

def Customer.suborgs : Customer → CustomerList
  | .mk _ _ _ _ _ v _ _ _ => v

def Customer.parent_org_name : Customer → Option String
  | .mk _ _ _ _ _ _ v _ _ => v

def Customer.email : Customer → Option String
  | .mk _ _ _ _ _ _ _ v _ => v

def Customer.metadata : Customer → Metadata
  | .mk _ _ _ _ _ _ _ _ v => v

def CustomerList.toList : CustomerList → List Customer
  | .nil => []
  | .cons c cs => c :: cs.toList

/-- JavaScript truthiness filter on an optional string: an empty string is
falsy and behaves like an absent operand in a `||` chain. -/
def truthyS : Option String → Option String
  | some s => if s = "" then none else some s
  | none => none

/-- JavaScript truthiness filter on an optional number: 0 is falsy. -/
def truthyI : Option Int → Option Int
  | some n => if n = 0 then none else some n
  | none => none

/-- `data.id ?? data.Id ?? data.ID` (line 45). -/
def resolveIdAlias (s : RawScalar) : Option JVal :=
  (s.id.orElse fun _ => s.Id.orElse fun _ => s.ID)

/-- `String(rawId)` (line 46): stringification of the resolved identifier;
when no alias is present this is JavaScript `String(undefined)`, the
eight-character string "undefined". -/
def idString (s : RawScalar) : String :=
  match resolveIdAlias s with
  | some v => v.toStr
  | none => "undefined"

/-- `data.name || data.Name || ""` (line 66). -/
def resolveName (s : RawScalar) : String :=
  match truthyS s.name with
  | some v => v
  | none =>
    match truthyS s.Name with
    | some v => v
    | none => ""

/-- `data.customer_type || data.customerType || "org"` (lines 56 and 67). -/
def resolveCustomerType (s : RawScalar) : String :=
  match truthyS s.customer_type with
  | some v => v
  | none =>
    match truthyS s.customerType with
    | some v => v
    | none => "org"

/-- Lines 68-69: `data.created || (data.CreatedAt ? new
Date(data.CreatedAt).getTime()/1000 : Math.floor(Date.now()/1000))`. -/
def resolveCreated (parse : String → Int) (now : Int) (s : RawScalar) : Int :=
  let fallback :=
    match truthyS s.CreatedAt with
    | some d => parse d
    | none => now
  match truthyI s.created with
  | some n => n
  | none => fallback

/-- `data.client_count || data.clientCount || data.ClientCount || 0`
(line 70). -/
def resolveClientCount (s : RawScalar) : Int :=
  match truthyI s.client_count with
  | some n => n
  | none =>
    match truthyI s.clientCount with
    | some n => n
    | none =>
      match truthyI s.ClientCount with
      | some n => n
      | none => 0

/-- `data.parent_org_name || data.parentOrgName || data.ParentOrgName`
(line 72): first truthy operand, else the value of the last operand as-is
(which is how `||` can produce a present empty string). -/
def resolveParentOrgName (s : RawScalar) : Option String :=
  match truthyS s.parent_org_name with
  | some v => some v
  | none =>
    match truthyS s.parentOrgName with
    | some v => some v
    | none => s.ParentOrgName

/-- `data.email || data.Email` (line 73). -/
def resolveEmail (s : RawScalar) : Option String :=
  match truthyS s.email with
  | some v => some v
  | none => s.Email

/-- `data.metadata || {}` (line 74); any present object is truthy. -/
def resolveMetadata (s : RawScalar) : Metadata :=
  s.metadata.getD []

/-- The child filter of lines 53-60: keep a raw suborg entry iff its
stringified resolved id differs from the parent id and its resolved
customer type is exactly "sub-org". -/
def keepChild (parentId : String) (r : Raw) : Bool :=
  (idString r.scalar != parentId) && (resolveCustomerType r.scalar == "sub-org")

mutual
/-- Shallow embedding of `transformCustomerData` (lines 43-76).  The nested
matches on the three suborg alias fields spell out
`data.suborgs || data.subOrgs || data.SubOrgs || []` followed by the
`Array.isArray` test (lines 49-50): the first present truthy alias wins; a
truthy non-array value stops the chain and then yields `[]`; if no alias is
present the default `[]` is used.  `transformSubOrgs` fuses the
`.filter(...).map(transformCustomerData)` of the source into one pass
(proved equal to filter-then-map in `transformSubOrgs_toList` below). -/
def transformCustomerData (parse : String → Int) (now : Int) : Raw → Customer
  | .mk s so sO SO =>
    Customer.mk (idString s) (resolveName s) (resolveCustomerType s)
      (resolveCreated parse now s) (resolveClientCount s)
      (match so with
       | .arr l => transformSubOrgs parse now (idString s) l
       | .nonArray => .nil
       | .absent =>
         match sO with
         | .arr l => transformSubOrgs parse now (idString s) l
         | .nonArray => .nil
         | .absent =>
           match SO with
           | .arr l => transformSubOrgs parse now (idString s) l
           | .nonArray => .nil
           | .absent => .nil)
      (resolveParentOrgName s) (resolveEmail s) (resolveMetadata s)

/-- The filter-and-map over raw suborg entries (lines 50-62). -/
def transformSubOrgs (parse : String → Int) (now : Int) (parentId : String) :
    RawList → CustomerList
  | .nil => .nil
  | .cons r rs =>
    if keepChild parentId r then
      .cons (transformCustomerData parse now r) (transformSubOrgs parse now parentId rs)
    else
      transformSubOrgs parse now parentId rs
end

/-- A fixed trivial date semantics used to instantiate the `parse`
parameter in concrete evaluations. -/
def parse0 : String → Int := fun _ => 0

example :
    transformCustomerData parse0 7
      (.mk { RawScalar.empty with id := some (.s "5"), Id := some (.s "9"), name := some "X" }
        .absent .absent .absent)
      = Customer.mk "5" "X" "org" 7 0 .nil none none [] := rfl

/-- The fetched payload of `refreshCustomers` after `response.json()`:
either a JavaScript array (whose elements may be null/undefined, modelled
`none`) or some non-array value (line 236 checks `Array.isArray`). -/
inductive Fetched where
  | notArray : Fetched
  | arr (l : List (Option Raw)) : Fetched

/-- One entry of the `invalidCustomers` diagnostics array (index plus the
reason string pushed at lines 249, 260, 263). -/
structure Diag where
  index : Nat
  reason : String
deriving DecidableEq

/-- The `data.forEach` validation loop of `refreshCustomers`
(lines 246-271), at starting index `i`: a null/undefined element is
diagnosed, otherwise the element is transformed and the transformed record
is rejected when `!customer.id` (its id is the empty string) or
`!customer.name` (its name is the empty string), and accepted otherwise.
Within the modelled record space `transformCustomerData` is total, so the
catch-branch reason "transform error" (line 269) is unreachable and has no
case here. -/
def processRecords (parse : String → Int) (now : Int) :
    Nat → List (Option Raw) → List Customer × List Diag
  | _, [] => ([], [])
  | i, rc :: rest =>
    let acc := processRecords parse now (i + 1) rest
    match rc with
    | none => (acc.1, ⟨i, "null or undefined"⟩ :: acc.2)
    | some raw =>
      let c := transformCustomerData parse now raw
      if c.id = "" then (acc.1, ⟨i, "missing id"⟩ :: acc.2)
      else if c.name = "" then (acc.1, ⟨i, "missing name"⟩ :: acc.2)
      else (c :: acc.1, acc.2)

/-- The record-processing core of `refreshCustomers` (lines 236-279): a
non-array payload yields the empty customer list with no per-record
diagnostics (lines 236-240, `setCustomers([])` then return, no exception);
an array payload is validated record by record.  The returned pair is
(accepted customers, diagnostics). -/
def refreshCustomersCore (parse : String → Int) (now : Int) :
    Fetched → List Customer × List Diag
  | .notArray => ([], [])
  | .arr l => processRecords parse now 0 l

/-- A row of the flattened customer list: the spread customer object plus
the synthesized `uniqueKey`. -/
structure FlattenedRow where
  base : Customer
  uniqueKey : String

/-- The spread `{...suborg, parent_org_name: customer.name, ...}` override
of the parent display name on a child row. -/
def withParentName (c : Customer) (pname : String) : Customer :=
  match c with
  | .mk i nm ct cr cc sub _ em md => .mk i nm ct cr cc sub (some pname) em md

/-- Top-level row: `{...customer, uniqueKey: "org-" + customer.id}`. -/
def topRow (c : Customer) : FlattenedRow :=
  ⟨c, "org-" ++ c.id⟩

/-- Child row at index `i` under parent `p`:
`{...suborg, parent_org_name: p.name,
  uniqueKey: "suborg-" + p.id + "-" + (suborg.id || index)}`. -/
def childRow (p : Customer) (i : Nat) (s : Customer) : FlattenedRow :=
  ⟨withParentName s p.name,
   "suborg-" ++ p.id ++ "-" ++ (if s.id = "" then toString i else s.id)⟩

/-- One step of the `customers.reduce` in `allCustomersFlattened`
(client-create-batch/page.tsx lines 29-48, identically on the homepage):
push the top-level row, then, when the suborgs list is non-empty, push one
child row per suborg in stored order. -/
def flattenStep (acc : List FlattenedRow) (c : Customer) : List FlattenedRow :=
  let acc1 := acc ++ [topRow c]
  if 0 < c.suborgs.toList.length then
    acc1 ++ (c.suborgs.toList.enum.map fun p => childRow c p.1 p.2)
  else acc1

/-- `allCustomersFlattened`: the reduce over the customer list with an
empty initial accumulator. -/
def allCustomersFlattened (cs : List Customer) : List FlattenedRow :=
  cs.foldl flattenStep []

/-- The keys emitted by the flattener. -/
def rowKeys (cs : List Customer) : List String :=
  (allCustomersFlattened cs).map FlattenedRow.uniqueKey

/-- The `Partial<Customer>` argument of `updateCustomer`: any subset of the
customer fields may be present; a present field replaces the old value via
the object spread `{ ...customer, ...updates }`. -/
structure CustomerUpdate where
  id : Option String
  name : Option String
  customer_type : Option String
  created : Option Int
  client_count : Option Int
  suborgs : Option CustomerList
  parent_org_name : Option (Option String)
  email : Option (Option String)
  metadata : Option Metadata

/-- The empty update (no field present). -/
def CustomerUpdate.none : CustomerUpdate :=
  ⟨Option.none, Option.none, Option.none, Option.none, Option.none,
   Option.none, Option.none, Option.none, Option.none⟩

/-- `{ ...customer, ...updates }` (line 170). -/
def applyUpdate (c : Customer) (u : CustomerUpdate) : Customer :=
  match c with
  | .mk i nm ct cr cc sub pon em md =>
    .mk (u.id.getD i) (u.name.getD nm) (u.customer_type.getD ct)
      (u.created.getD cr) (u.client_count.getD cc) (u.suborgs.getD sub)
      (u.parent_org_name.getD pon) (u.email.getD em) (u.metadata.getD md)

/-- `setCustomers((prev) => [...prev, newCustomer])` (line 141). -/
def addCustomerOp (l : List Customer) (c : Customer) : List Customer :=
  l ++ [c]

/-- `prev.map((customer) => customer.id === id ? { ...customer, ...updates }
: customer)` (lines 168-172). -/
def updateCustomerOp (l : List Customer) (i : String) (u : CustomerUpdate) :
    List Customer :=
  l.map fun c => if c.id = i then applyUpdate c u else c

/-- `prev.filter((customer) => customer.id !== id)` (line 198). -/
def deleteCustomerOp (l : List Customer) (i : String) : List Customer :=
  l.filter fun c => c.id != i

/-- Projection: the id of a transformed record is the stringified resolved
id alias. -/
theorem transform_id_eq (parse : String → Int) (now : Int) (r : Raw) :
    (transformCustomerData parse now r).id = idString r.scalar := by
  cases r; rfl

/-- Projection: the customer type of a transformed record is the resolved
customer-type alias chain. -/
theorem transform_customer_type_eq (parse : String → Int) (now : Int) (r : Raw) :
    (transformCustomerData parse now r).customer_type
      = resolveCustomerType r.scalar := by
  cases r; rfl

/-- Projection: the name of a transformed record. -/
theorem transform_name_eq (parse : String → Int) (now : Int) (r : Raw) :
    (transformCustomerData parse now r).name = resolveName r.scalar := by
  cases r; rfl

/-- The raw suborgs array after the alias `||` chain and the
`Array.isArray` test, written unfused (the same resolution the nested
matches inside `transformCustomerData` perform). -/
def resolvedSubList : Raw → RawList
  | .mk _ so sO SO =>
    match so with
    | .arr l => l
    | .nonArray => .nil
    | .absent =>
      match sO with
      | .arr l => l
      | .nonArray => .nil
      | .absent =>
        match SO with
        | .arr l => l
        | .nonArray => .nil
        | .absent => .nil

/-- The fused filter-map pass equals filter-then-map over the plain list. -/
theorem transformSubOrgs_toList (parse : String → Int) (now : Int)
    (pid : String) :
    ∀ l : RawList,
      (transformSubOrgs parse now pid l).toList
        = (l.toList.filter (keepChild pid)).map (transformCustomerData parse now)
  | .nil => rfl
  | .cons r rs => by
    have ih := transformSubOrgs_toList parse now pid rs
    by_cases h : keepChild pid r
    · simp [transformSubOrgs, RawList.toList, List.filter_cons, h,
        CustomerList.toList, ih]
    · simp [transformSubOrgs, RawList.toList, List.filter_cons, h,
        CustomerList.toList, ih]

/-- The suborgs of a transformed record are exactly the filtered raw
children, each fully (recursively) transformed. -/
theorem transform_suborgs_eq (parse : String → Int) (now : Int) (r : Raw) :
    (transformCustomerData parse now r).suborgs
      = transformSubOrgs parse now (idString r.scalar) (resolvedSubList r) := by
  cases r with
  | mk s so sO SO => cases so <;> cases sO <;> cases SO <;> rfl

/-- Shared characterization used by several claims below: the child list of
a normalized record, as a plain list. -/
theorem transform_suborgs_toList (parse : String → Int) (now : Int) (r : Raw) :
    (transformCustomerData parse now r).suborgs.toList
      = ((resolvedSubList r).toList.filter (keepChild (idString r.scalar))).map
          (transformCustomerData parse now) := by
  rw [transform_suborgs_eq, transformSubOrgs_toList]

/-- Concrete record with a name but no id alias at all. -/
def rawNoId : Raw :=
  .mk { RawScalar.empty with name := some "X" } .absent .absent .absent

/-- Concrete record whose kind alias holds an unrecognized non-empty
value. -/
def rawBananaKind : Raw :=
  .mk { RawScalar.empty with
          id := some (.s "1")
          name := some "A"
          customer_type := some "banana" } .absent .absent .absent

/-- Concrete valid sub-org child record. -/
def rawChild2 : Raw :=
  .mk { RawScalar.empty with
          id := some (.s "2")
          name := some "B"
          customer_type := some "sub-org" } .absent .absent .absent

/-- Concrete parent with one valid child. -/
def rawParent1 : Raw :=
  .mk { RawScalar.empty with id := some (.s "1"), name := some "A" }
    (.arr (.cons rawChild2 .nil)) .absent .absent

/-- Concrete grandchild record. -/
def rawGrandChild3 : Raw :=
  .mk { RawScalar.empty with
          id := some (.s "3")
          name := some "C"
          customer_type := some "sub-org" } .absent .absent .absent

/-- Concrete child that itself carries a nested (grandchild) record. -/
def rawChildWithGrand : Raw :=
  .mk { RawScalar.empty with
          id := some (.s "2")
          name := some "B"
          customer_type := some "sub-org" }
    (.arr (.cons rawGrandChild3 .nil)) .absent .absent

/-- Concrete parent whose raw input contains a grandchild. -/
def rawParentGrand : Raw :=
  .mk { RawScalar.empty with id := some (.s "1"), name := some "A" }
    (.arr (.cons rawChildWithGrand .nil)) .absent .absent

/-- C1: the claim says a fetched record with no resolvable id alias is
excluded from the accepted set with a "missing id" diagnostic.  The code
disagrees: `String(undefined)` yields the non-empty placeholder string
"undefined", so the `!customer.id` guard of `refreshCustomers` never fires
for an absent id, and the record `{name: "X"}` is accepted with the
placeholder id "undefined" and no diagnostic.  This theorem evaluates the
embedded refresh core at that failing input. -/
theorem refresh_accepts_record_without_id :
    refreshCustomersCore parse0 0 (.arr [some rawNoId])
      = ([Customer.mk "undefined" "X" "org" 0 0 .nil none none []], []) := rfl

/-- C7: a fetch payload that is not a list yields the empty accepted set
and no per-record diagnostics; no record is processed and nothing is
thrown. -/
theorem refresh_non_list_payload_empty (parse : String → Int) (now : Int) :
    refreshCustomersCore parse now .notArray = ([], []) := rfl

/-- C6 (amended): the normalized customer type is "org" exactly when every
kind alias is absent or empty; a non-empty resolved alias value is taken
verbatim, recognized or not. -/
theorem kind_defaults_to_org_when_aliases_falsy (parse : String → Int)
    (now : Int) (r : Raw) (h1 : truthyS r.scalar.customer_type = none)
    (h2 : truthyS r.scalar.customerType = none) :
    (transformCustomerData parse now r).customer_type = "org" := by
  rw [transform_customer_type_eq]
  unfold resolveCustomerType
  rw [h1, h2]

/-- Witness for the amended C6 theorem at a concrete aliasless record. -/
theorem kind_defaults_to_org_when_aliases_falsy_witness :
    (transformCustomerData parse0 0 rawNoId).customer_type = "org" :=
  kind_defaults_to_org_when_aliases_falsy parse0 0 rawNoId rfl rfl

/-- C6 counterexample: a record whose kind alias holds the unrecognized
non-empty value "banana" is not defaulted to "org"; the resulting customer
type is neither recognized kind, refuting the claim as stated. -/
theorem unrecognized_kind_kept_verbatim :
    (transformCustomerData parse0 0 rawBananaKind).customer_type ≠ "org" ∧
      (transformCustomerData parse0 0 rawBananaKind).customer_type ≠ "sub-org" := by
  decide

/-- C9 (amended): normalization is recursive at every depth.  The suborgs
of a normalized record are the raw children that pass the kind/self-id
filter, each handed back to `transformCustomerData` in full, so nested
children of a child (grandchildren in the raw input) ARE processed and can
surface in the output rather than being truncated. -/
theorem normalizer_is_recursive_at_every_depth (parse : String → Int)
    (now : Int) (r : Raw) :
    (transformCustomerData parse now r).suborgs.toList
      = ((resolvedSubList r).toList.filter (keepChild (idString r.scalar))).map
          (transformCustomerData parse now) :=
  transform_suborgs_toList parse now r

/-- C9 counterexample: a raw parent holding a child that itself holds a
valid grandchild normalizes to an entity whose child has a NON-empty
suborgs list, refuting the claim that every normalized child has an empty
child list. -/
theorem normalized_child_with_nonempty_children :
    ¬ (∀ c ∈ (transformCustomerData parse0 0 rawParentGrand).suborgs.toList,
        c.suborgs.toList.length = 0) := by
  decide

/-- C4: every member of the suborgs list of a normalized record has
customer type exactly "sub-org" and an id different from the id of the
parent entity (records failing either condition were dropped by the child
filter). -/
theorem normalized_children_kind_and_id (parse : String → Int) (now : Int)
    (r : Raw) (c : Customer)
    (h : c ∈ (transformCustomerData parse now r).suborgs.toList) :
    c.customer_type = "sub-org" ∧ c.id ≠ (transformCustomerData parse now r).id := by
  rw [transform_suborgs_toList] at h
  obtain ⟨rc, hrc, hc⟩ := List.mem_map.mp h
  obtain ⟨_, hkeep⟩ := List.mem_filter.mp hrc
  unfold keepChild at hkeep
  rw [Bool.and_eq_true] at hkeep
  obtain ⟨hne, hty⟩ := hkeep
  subst hc
  refine ⟨?_, ?_⟩
  · rw [transform_customer_type_eq]
    exact eq_of_beq hty
  · rw [transform_id_eq, transform_id_eq]
    exact bne_iff_ne.mp hne

/-- Witness for C4 at a concrete parent with one valid child. -/
theorem normalized_children_kind_and_id_witness :
    (transformCustomerData parse0 0 rawChild2).customer_type = "sub-org" ∧
      (transformCustomerData parse0 0 rawChild2).id
        ≠ (transformCustomerData parse0 0 rawParent1).id :=
  normalized_children_kind_and_id parse0 0 rawParent1
    (transformCustomerData parse0 0 rawChild2) (List.mem_cons_self _ _)

/-- One reduce step appends the block of its customer: the top-level row
followed by one child row per suborg in stored order. -/
theorem flattenStep_eq (acc : List FlattenedRow) (c : Customer) :
    flattenStep acc c
      = acc ++ (topRow c :: c.suborgs.toList.enum.map fun p => childRow c p.1 p.2) := by
  unfold flattenStep
  rcases h : c.suborgs.toList with _ | ⟨x, xs⟩
  · simp [h]
  · simp [h, List.append_assoc]

/-- The reduce with any accumulator appends the concatenation of all
blocks. -/
theorem foldl_flattenStep (cs : List Customer) :
    ∀ acc : List FlattenedRow,
      cs.foldl flattenStep acc
        = acc ++ cs.flatMap
            (fun c => topRow c :: c.suborgs.toList.enum.map fun p => childRow c p.1 p.2) := by
  induction cs with
  | nil => intro acc; simp
  | cons c cs ih =>
    intro acc
    rw [List.foldl_cons, flattenStep_eq, ih, List.flatMap_cons, List.append_assoc]

/-- C2: the flattener output is exactly the concatenation, in input order,
of one top-level row per entity immediately followed by one row per child
of that entity in stored order; hence an entity with no children
contributes exactly the singleton block of its own row, and each input
position is flattened exactly once. -/
theorem flattener_parent_then_children_order (cs : List Customer) :
    allCustomersFlattened cs
      = cs.flatMap
          (fun c => topRow c :: c.suborgs.toList.enum.map fun p => childRow c p.1 p.2) := by
  unfold allCustomersFlattened
  rw [foldl_flattenStep]
  simp

mutual
/-- The canonical raw record a Customer presents when handed back to
`transformCustomerData` in JavaScript: every canonical (lower-snake-case)
key carries the field value and no variant alias key is present. -/
def toRaw : Customer → Raw
  | .mk i nm ct cr cc subs pon em md =>
    .mk { RawScalar.empty with
            id := some (.s i)
            name := some nm
            customer_type := some ct
            created := some cr
            client_count := some cc
            parent_org_name := pon
            email := em
            metadata := some md }
      (.arr (toRawList subs)) .absent .absent

/-- Canonical raw array of a customer list. -/
def toRawList : CustomerList → RawList
  | .nil => .nil
  | .cons c cl => .cons (toRaw c) (toRawList cl)
end

mutual
/-- The entities on which re-normalization is the identity: `created` is
non-zero (a zero epoch is falsy and would be re-synthesized from the
clock), the customer type is non-empty, neither optional string field is a
present empty string (a falsy present value is dropped by the `||` chains),
and every child is a sub-org with an id differing from the parent id
(otherwise the child filter would drop it) and recursively of the same
shape. -/
def renormalizable : Customer → Bool
  | .mk i _ ct cr _ subs pon em _ =>
    (cr != 0) && (ct != "") && (pon != some "") && (em != some "") &&
      renormalizableChildren i subs

/-- Child-list side of `renormalizable`. -/
def renormalizableChildren (pid : String) : CustomerList → Bool
  | .nil => true
  | .cons c cl =>
    (c.customer_type == "sub-org") && (c.id != pid) && renormalizable c &&
      renormalizableChildren pid cl
end

/-- The canonical raw record of a customer resolves to the same id. -/
theorem idString_toRaw (c : Customer) : idString (toRaw c).scalar = c.id := by
  cases c; rfl

/-- The canonical raw record of a customer resolves to the same customer
type provided the type is non-empty. -/
theorem resolveCustomerType_toRaw (c : Customer) (h : c.customer_type ≠ "") :
    resolveCustomerType (toRaw c).scalar = c.customer_type := by
  cases c with
  | mk i nm ct cr cc subs pon em md =>
    simp only [Customer.customer_type] at h
    simp [toRaw, Raw.scalar, resolveCustomerType, truthyS, h, Customer.customer_type]

mutual
/-- Re-normalizing the canonical raw record of a renormalizable customer
reproduces the customer exactly. -/
theorem transform_toRaw (parse : String → Int) (now : Int) :
    ∀ c : Customer, renormalizable c = true →
      transformCustomerData parse now (toRaw c) = c
  | .mk i nm ct cr cc subs pon em md => fun h => by
    simp only [renormalizable, Bool.and_eq_true, bne_iff_ne, beq_iff_eq] at h
    obtain ⟨⟨⟨⟨hcr, hct⟩, hpon⟩, hem⟩, hsubs⟩ := h
    unfold toRaw transformCustomerData
    congr 1
    · -- name
      by_cases hnm : nm = "" <;> simp [resolveName, truthyS, hnm, RawScalar.empty]
    · -- customer type
      simp [resolveCustomerType, truthyS, hct]
    · -- created
      simp [resolveCreated, truthyI, hcr]
    · -- client count
      by_cases hcc : cc = 0 <;> simp [resolveClientCount, truthyI, hcc, RawScalar.empty]
    · -- suborgs
      exact transformSubOrgs_toRawList parse now i subs hsubs
    · -- parent display name
      cases pon with
      | none => rfl
      | some v =>
        have hv : v ≠ "" := fun hv => hpon (by rw [hv])
        simp [resolveParentOrgName, truthyS, hv]
    · -- email
      cases em with
      | none => rfl
      | some v =>
        have hv : v ≠ "" := fun hv => hem (by rw [hv])
        simp [resolveEmail, truthyS, hv]

/-- Child-list side of `transform_toRaw`: the filter keeps every
renormalizable child, and each child round-trips. -/
theorem transformSubOrgs_toRawList (parse : String → Int) (now : Int)
    (pid : String) :
    ∀ cl : CustomerList, renormalizableChildren pid cl = true →
      transformSubOrgs parse now pid (toRawList cl) = cl
  | .nil => fun _ => rfl
  | .cons c cl => fun h => by
    simp only [renormalizableChildren, Bool.and_eq_true, bne_iff_ne,
      beq_iff_eq] at h
    obtain ⟨⟨⟨hct, hid⟩, hc⟩, hcl⟩ := h
    have hkeep : keepChild pid (toRaw c) = true := by
      unfold keepChild
      rw [idString_toRaw, resolveCustomerType_toRaw c (by rw [hct]; decide)]
      rw [hct]
      simp [hid]
    rw [toRawList, transformSubOrgs, if_pos hkeep,
      transform_toRaw parse now c hc,
      transformSubOrgs_toRawList parse now pid cl hcl]
end

/-- Concrete record carrying a present-but-empty `Email` alias. -/
def rawEmptyEmail : Raw :=
  .mk { RawScalar.empty with
          id := some (.s "1")
          name := some "A"
          Email := some "" } .absent .absent .absent

/-- C5 (amended): re-normalization reproduces an entity exactly whenever
its `created` is non-zero, its customer type is non-empty, its optional
string fields are not present-but-empty, and (recursively) its children
are sub-orgs with ids differing from the parent — conditions every field
of which the counterexample below shows to be necessary in kind; without
them the falsy-value `||` chains re-synthesize or drop the field. -/
theorem normalization_idempotent_on_renormalizable (parse : String → Int)
    (now : Int) (c : Customer) (h : renormalizable c = true) :
    transformCustomerData parse now (toRaw c) = c :=
  transform_toRaw parse now c h

/-- Concrete renormalizable entity. -/
def custGood : Customer := .mk "1" "A" "org" 5 0 .nil none none []

/-- Witness for the amended C5 theorem. -/
theorem normalization_idempotent_on_renormalizable_witness :
    renormalizable custGood = true ∧
      transformCustomerData parse0 0 (toRaw custGood) = custGood :=
  ⟨rfl, normalization_idempotent_on_renormalizable parse0 0 custGood rfl⟩

/-- C5 counterexample: the output entity for a record whose `Email` alias
is a present empty string has `email` present-and-empty; re-normalizing
that very output drops the field (empty string is falsy in the `||`
chain), so normalization is NOT idempotent on all outputs. -/
theorem renormalization_drifts_on_empty_email :
    transformCustomerData parse0 0 (toRaw (transformCustomerData parse0 0 rawEmptyEmail))
      ≠ transformCustomerData parse0 0 rawEmptyEmail := by
  intro h
  have h2 := congrArg Customer.email h
  have e1 : (transformCustomerData parse0 0
      (toRaw (transformCustomerData parse0 0 rawEmptyEmail))).email = none := rfl
  have e2 : (transformCustomerData parse0 0 rawEmptyEmail).email = some "" := rfl
  rw [e1, e2] at h2
  exact Option.noConfusion h2

mutual
/-- A raw record resolves an authoritative timestamp (a truthy `created`
or a truthy `CreatedAt` alias), and so recursively does every child that
survives the child filter; exactly these records are normalized without
consulting the ambient clock. -/
def hasTimestamp : Raw → Bool
  | .mk s so sO SO =>
    ((truthyI s.created).isSome || (truthyS s.CreatedAt).isSome) &&
      (match so with
       | .arr l => hasTimestampList (idString s) l
       | .nonArray => true
       | .absent =>
         match sO with
         | .arr l => hasTimestampList (idString s) l
         | .nonArray => true
         | .absent =>
           match SO with
           | .arr l => hasTimestampList (idString s) l
           | .nonArray => true
           | .absent => true)

/-- Child-list side of `hasTimestamp`: only children that pass the filter
(and hence get transformed) need a timestamp. -/
def hasTimestampList (pid : String) : RawList → Bool
  | .nil => true
  | .cons r rs =>
    (!(keepChild pid r) || hasTimestamp r) && hasTimestampList pid rs
end

mutual
/-- Normalization of a timestamped record does not depend on the clock. -/
theorem transform_time_independent (parse : String → Int) (n n2 : Int) :
    ∀ r : Raw, hasTimestamp r = true →
      transformCustomerData parse n r = transformCustomerData parse n2 r
  | .mk s so sO SO => fun h => by
    unfold hasTimestamp at h
    rw [Bool.and_eq_true] at h
    obtain ⟨htime, hsub⟩ := h
    unfold transformCustomerData
    congr 1
    · -- created
      unfold resolveCreated
      rcases h1 : truthyI s.created with _ | n0
      · rcases h2 : truthyS s.CreatedAt with _ | d
        · rw [h1, h2, Option.isSome_none, Option.isSome_none] at htime
          simp at htime
        · simp [h1, h2]
      · simp [h1]
    · -- suborgs
      cases so with
      | arr l => exact transform_time_independent_list parse n n2 (idString s) l hsub
      | nonArray => rfl
      | absent =>
        cases sO with
        | arr l => exact transform_time_independent_list parse n n2 (idString s) l hsub
        | nonArray => rfl
        | absent =>
          cases SO with
          | arr l => exact transform_time_independent_list parse n n2 (idString s) l hsub
          | nonArray => rfl
          | absent => rfl

/-- Child-list side of `transform_time_independent`. -/
theorem transform_time_independent_list (parse : String → Int) (n n2 : Int)
    (pid : String) :
    ∀ l : RawList, hasTimestampList pid l = true →
      transformSubOrgs parse n pid l = transformSubOrgs parse n2 pid l
  | .nil => fun _ => rfl
  | .cons r rs => fun h => by
    unfold hasTimestampList at h
    rw [Bool.and_eq_true, Bool.or_eq_true, Bool.not_eq_true'] at h
    obtain ⟨hr, hrs⟩ := h
    unfold transformSubOrgs
    by_cases hk : keepChild pid r
    · rw [if_pos hk, if_pos hk,
        transform_time_independent parse n n2 r (hr.resolve_left (by rw [hk]; decide)),
        transform_time_independent_list parse n n2 pid rs hrs]
    · rw [if_neg hk, if_neg hk,
        transform_time_independent_list parse n n2 pid rs hrs]
end

/-- Concrete record with an explicit epoch timestamp and no children. -/
def rawWithCreated : Raw :=
  .mk { RawScalar.empty with
          id := some (.s "1")
          name := some "A"
          created := some 5 } .absent .absent .absent

/-- C8 (amended): `transformCustomerData` is a pure function of its input
record and the invocation-time clock reading.  For records in which every
processed (sub)record resolves a truthy timestamp alias, the output is
additionally independent of the clock; otherwise the `created` fallback
reads the clock, so two invocations on the equal record at different times
differ (counterexample below).  Diagnostics live in a separate component of
the refresh result and never alter the accepted batch. -/
theorem transform_pure_given_timestamps (parse : String → Int) (n n2 : Int)
    (r : Raw) (h : hasTimestamp r = true) :
    transformCustomerData parse n r = transformCustomerData parse n2 r :=
  transform_time_independent parse n n2 r h

/-- Witness for the amended C8 theorem at a concrete timestamped record. -/
theorem transform_pure_given_timestamps_witness :
    hasTimestamp rawWithCreated = true ∧
      transformCustomerData parse0 0 rawWithCreated
        = transformCustomerData parse0 1 rawWithCreated :=
  ⟨rfl, transform_pure_given_timestamps parse0 0 1 rawWithCreated rfl⟩

/-- C8 counterexample: on a record with no timestamp alias, two invocations
of `transformCustomerData` at different clock readings return different
entities (the synthesized `created` differs), refuting purity across
invocation times. -/
theorem transform_depends_on_clock :
    transformCustomerData parse0 0 rawNoId ≠ transformCustomerData parse0 1 rawNoId := by
  intro h
  have h2 := congrArg Customer.created h
  have e1 : (transformCustomerData parse0 0 rawNoId).created = 0 := rfl
  have e2 : (transformCustomerData parse0 1 rawNoId).created = 1 := rfl
  rw [e1, e2] at h2
  exact absurd h2 (by decide)

/-- A string containing no dash character. -/
def dashFree (s : String) : Bool :=
  s.data.all fun ch => ch != '-'

/-- The key suffix the flattener synthesizes for a child at index `i`:
`suborg.id || index`. -/
def childSuffix (i : Nat) (s : Customer) : String :=
  if s.id = "" then toString i else s.id

/-- The key suffixes of all children of one parent, in stored order. -/
def childSuffixes (c : Customer) : List String :=
  c.suborgs.toList.enum.map fun p => childSuffix p.1 p.2

/-- The keys contributed by one top-level customer: its own key followed by
its child keys. -/
def keyBlock (c : Customer) : List String :=
  ("org-" ++ c.id) :: (childSuffixes c).map fun x => "suborg-" ++ c.id ++ "-" ++ x

/-- The emitted keys are the concatenation of the per-customer blocks. -/
theorem rowKeys_eq_flatMap (cs : List Customer) :
    rowKeys cs = cs.flatMap keyBlock := by
  unfold rowKeys allCustomersFlattened
  rw [foldl_flattenStep, List.nil_append, List.map_flatMap]
  congr 1
  funext c
  unfold keyBlock childSuffixes
  simp only [List.map_cons, List.map_map]
  rfl

theorem mem_data_ne_dash (s : String) (h : dashFree s = true) :
    ∀ ch ∈ s.data, ch ≠ '-' := by
  intro ch hch
  exact bne_iff_ne.mp (List.all_eq_true.mp h ch hch)

/-- Splitting at a dash is unambiguous when both left parts are
dash-free. -/
theorem dash_split (l1 : List Char) :
    ∀ l2 r1 r2 : List Char,
      (∀ ch ∈ l1, ch ≠ '-') → (∀ ch ∈ l2, ch ≠ '-') →
      l1 ++ '-' :: r1 = l2 ++ '-' :: r2 → l1 = l2 ∧ r1 = r2 := by
  induction l1 with
  | nil =>
    intro l2 r1 r2 _ h2 h
    cases l2 with
    | nil =>
      simp only [List.nil_append, List.cons.injEq, true_and] at h
      exact ⟨rfl, h⟩
    | cons b bs =>
      simp only [List.nil_append, List.cons_append, List.cons.injEq] at h
      exact absurd h.1.symm (h2 b (List.mem_cons_self b bs))
  | cons a as ih =>
    intro l2 r1 r2 h1 h2 h
    cases l2 with
    | nil =>
      simp only [List.nil_append, List.cons_append, List.cons.injEq] at h
      exact absurd h.1 (h1 a (List.mem_cons_self a as))
    | cons b bs =>
      simp only [List.cons_append, List.cons.injEq] at h
      obtain ⟨hab, htl⟩ := h
      obtain ⟨hl, hr⟩ :=
        ih bs r1 r2 (fun ch hch => h1 ch (List.mem_cons_of_mem a hch))
          (fun ch hch => h2 ch (List.mem_cons_of_mem b hch)) htl
      exact ⟨by rw [hab, hl], hr⟩

theorem string_append_left_cancel (a x y : String) (h : a ++ x = a ++ y) :
    x = y := by
  apply String.ext
  have hd := congrArg String.data h
  rw [String.data_append, String.data_append] at hd
  exact List.append_cancel_left hd

theorem org_key_injective (a b : String) (h : "org-" ++ a = "org-" ++ b) :
    a = b :=
  string_append_left_cancel "org-" a b h

/-- A top-level key never equals a child key: they start with different
characters. -/
theorem org_key_ne_suborg_key (a p x : String) :
    ("org-" ++ a) ≠ ("suborg-" ++ p ++ "-" ++ x) := by
  intro h
  have e1 : (("org-" ++ a).data).head? = some 'o' := by
    rw [String.data_append]; rfl
  have e2 : (("suborg-" ++ p ++ "-" ++ x).data).head? = some 's' := by
    rw [String.data_append, String.data_append, String.data_append]; rfl
  have h3 : some 'o' = some 's' := by
    rw [← e1, ← e2]
    exact congrArg (fun s => s.data.head?) h
  exact absurd h3 (by decide)

/-- Two child keys with dash-free parent ids agree only when both the
parent id and the suffix agree. -/
theorem suborg_key_split (p1 x1 p2 x2 : String)
    (h1 : dashFree p1 = true) (h2 : dashFree p2 = true)
    (h : "suborg-" ++ p1 ++ "-" ++ x1 = "suborg-" ++ p2 ++ "-" ++ x2) :
    p1 = p2 ∧ x1 = x2 := by
  have hd := congrArg String.data h
  simp only [String.data_append, List.append_assoc] at hd
  have hd3 : p1.data ++ '-' :: x1.data = p2.data ++ '-' :: x2.data :=
    List.append_cancel_left hd
  obtain ⟨hp, hx⟩ :=
    dash_split p1.data p2.data x1.data x2.data
      (mem_data_ne_dash p1 h1) (mem_data_ne_dash p2 h2) hd3
  exact ⟨String.ext hp, String.ext hx⟩

/-- C3 (amended): all flattener keys are pairwise distinct provided the
top-level ids are pairwise distinct and dash-free and, within each parent,
the child key suffixes (child id if non-empty, else the index) are pairwise
distinct.  Without these hypotheses keys can collide (counterexample
below: two top-level entities with the same id). -/
theorem flattener_keys_nodup_of (cs : List Customer)
    (h1 : (cs.map Customer.id).Nodup)
    (h2 : ∀ c ∈ cs, dashFree c.id = true)
    (h3 : ∀ c ∈ cs, (childSuffixes c).Nodup) :
    (rowKeys cs).Nodup := by
  rw [rowKeys_eq_flatMap, List.nodup_flatMap]
  constructor
  · intro c hc
    unfold keyBlock
    rw [List.nodup_cons]
    refine ⟨?_, ?_⟩
    · intro hmem
      obtain ⟨x, _, hx⟩ := List.mem_map.mp hmem
      exact org_key_ne_suborg_key c.id c.id x hx.symm
    · refine List.Nodup.map ?_ (h3 c hc)
      intro x y hxy
      exact string_append_left_cancel ("suborg-" ++ c.id ++ "-") x y hxy
  · have hpw : cs.Pairwise fun a b => a.id ≠ b.id := List.pairwise_map.mp h1
    refine List.Pairwise.imp_of_mem ?_ hpw
    intro a b ha hb hne
    intro k hka hkb
    unfold keyBlock at hka hkb
    rcases List.mem_cons.mp hka with hk1 | hk1 <;>
      rcases List.mem_cons.mp hkb with hk2 | hk2
    · exact hne (org_key_injective a.id b.id (by rw [← hk1, ← hk2]))
    · obtain ⟨y, _, hy⟩ := List.mem_map.mp hk2
      exact org_key_ne_suborg_key a.id b.id y (by rw [← hk1, ← hy])
    · obtain ⟨x, _, hx⟩ := List.mem_map.mp hk1
      exact org_key_ne_suborg_key b.id a.id x (by rw [← hk2, ← hx])
    · obtain ⟨x, _, hx⟩ := List.mem_map.mp hk1
      obtain ⟨y, _, hy⟩ := List.mem_map.mp hk2
      exact hne (suborg_key_split a.id x b.id y (h2 a ha) (h2 b hb)
        (by rw [hx, hy])).1

/-- Concrete sub-org entity. -/
def custA2 : Customer := .mk "2" "A2" "sub-org" 5 0 .nil none none []

/-- Concrete top-level entity with one child. -/
def custA : Customer := .mk "1" "A" "org" 5 0 (.cons custA2 .nil) none none []

/-- Concrete childless top-level entity. -/
def custB : Customer := .mk "3" "B" "org" 5 0 .nil none none []

/-- Concrete second top-level entity sharing the id of `custA`. -/
def custA1dup : Customer := .mk "1" "Adup" "org" 5 0 .nil none none []

/-- Witness for the amended C3 theorem at a concrete two-entity list. -/
theorem flattener_keys_nodup_of_witness :
    (([custA, custB]).map Customer.id).Nodup ∧
      (∀ c ∈ [custA, custB], dashFree c.id = true) ∧
      (∀ c ∈ [custA, custB], (childSuffixes c).Nodup) ∧
      (rowKeys [custA, custB]).Nodup :=
  ⟨by decide, by decide, by decide,
    flattener_keys_nodup_of [custA, custB] (by decide) (by decide) (by decide)⟩

/-- C3 counterexample: an input with two top-level entities carrying the
same id emits the key "org-1" twice, so the keys of the flattener output
are NOT pairwise distinct for every input. -/
theorem duplicate_top_ids_collide_keys :
    ¬ (rowKeys [custA, custA1dup]).Nodup := by decide

/-- C10: frame properties of the three optimistic state updates.  The
delete keeps exactly the customers whose id differs from the argument, as a
sublist (original relative order); the add appends one entity at the end
and leaves every existing position untouched; the update keeps the length,
rewrites exactly the positions whose customer matches the id (by object
spread), and leaves every non-matching position untouched. -/
theorem customer_list_ops_frame (i : String) (u : CustomerUpdate)
    (c : Customer) (l : List Customer) :
    (deleteCustomerOp l i).Sublist l ∧
      (∀ x : Customer, x ∈ deleteCustomerOp l i ↔ x ∈ l ∧ x.id ≠ i) ∧
      (addCustomerOp l c).length = l.length + 1 ∧
      (∀ (k : Nat) (x : Customer), l[k]? = some x →
        (addCustomerOp l c)[k]? = some x) ∧
      (addCustomerOp l c)[l.length]? = some c ∧
      (updateCustomerOp l i u).length = l.length ∧
      (∀ (k : Nat) (x : Customer), l[k]? = some x → x.id ≠ i →
        (updateCustomerOp l i u)[k]? = some x) ∧
      (∀ (k : Nat) (x : Customer), l[k]? = some x → x.id = i →
        (updateCustomerOp l i u)[k]? = some (applyUpdate x u)) := by
  refine ⟨List.filter_sublist l, ?_, by simp [addCustomerOp], ?_, ?_, ?_, ?_, ?_⟩
  · intro x
    simp [deleteCustomerOp, List.mem_filter, bne_iff_ne]
  · intro k x hk
    have hlt : k < l.length := (List.getElem?_eq_some_iff.mp hk).1
    unfold addCustomerOp
    rw [List.getElem?_append, if_pos hlt]
    exact hk
  · unfold addCustomerOp
    rw [List.getElem?_append_right (Nat.le_refl _)]
    simp
  · simp [updateCustomerOp]
  · intro k x hk hne
    unfold updateCustomerOp
    rw [List.getElem?_map, hk]
    simp [hne]
  · intro k x hk heq
    unfold updateCustomerOp
    rw [List.getElem?_map, hk]
    simp [heq]

/-- Witness for C10: the update with a non-matching id leaves the single
entity of a concrete list in place. -/
theorem customer_list_ops_frame_witness :
    (updateCustomerOp [custB] "9" CustomerUpdate.none)[0]? = some custB :=
  ((customer_list_ops_frame "9" CustomerUpdate.none custB [custB]).2.2.2.2.2.2.1)
    0 custB rfl (by decide)
